import Mathlib

/-!
Verification development for the schema encoder/decoder core of the
eas-sdk repository (`src/schema-encoder.ts`).

The TypeScript class `SchemaEncoder` is shallowly embedded below.  The
external collaborators (the ethers ABI coder, the function-fragment
grammar parser and the CID library) are not part of the repository; they
are represented by an explicit environment record `EthersEnv`, and the
two small ethers primitives whose concrete behaviour the specification
pins down (`formatBytes32String`, `isBytesLike`) are modelled
concretely from the specification's description.

JavaScript strings are modelled as Lean `String`, JavaScript runtime
values as the inductive `JSVal`, exceptions as `Except String`.
-/

/-- Decidable test that `pat` is a prefix of `l` (on character lists). -/
def isPre : List Char → List Char → Bool
  | [], _ => true
  | _ :: _, [] => false
  | a :: as, b :: bs => if a = b then isPre as bs else false

/-- Decidable test that `pat` occurs as a contiguous substring of `l`
(the model of JavaScript `String.prototype.includes`). -/
def listHas (pat : List Char) : List Char → Bool
  | [] => isPre pat []
  | c :: t => isPre pat (c :: t) || listHas pat t

/-- JavaScript `s.includes(pat)` on strings. -/
def strIncludes (s pat : String) : Bool :=
  listHas pat.data s.data

/-- JavaScript `s.replace(pat, tgt)` with a *string* pattern: replaces only
the first occurrence of `pat`, leaves the string unchanged when `pat` does
not occur. -/
def replaceFirstL (pat tgt : List Char) : List Char → List Char
  | [] => []
  | c :: cs =>
    if isPre pat (c :: cs) then tgt ++ List.drop (pat.length - 1) cs
    else c :: replaceFirstL pat tgt cs

/-- String wrapper for `replaceFirstL`. -/
def replaceFirstStr (s pat tgt : String) : String :=
  ⟨replaceFirstL pat.data tgt.data s.data⟩

/-- The characters of the pseudo-type literal `ipfsHash`. -/
def patI : List Char := ['i', 'p', 'f', 's', 'H', 'a', 's', 'h']

/-- The characters of the canonical fixed 32-byte type `bytes32`. -/
def tgtI : List Char := ['b', 'y', 't', 'e', 's', '3', '2']

/-- JavaScript `schema.replace(/ipfsHash/g, 'bytes32')` on character
lists: global, left-to-right, non-overlapping replacement.  When the
pattern (8 characters) matches at the head, the scan resumes after it;
the inner match peels those 8 characters off structurally (its catch-all
arm is unreachable, since a head match forces at least 7 more
characters, and `replAll []` is `[]` anyway). -/
def replAll : List Char → List Char
  | [] => []
  | c :: cs =>
    if isPre patI (c :: cs) then
      match cs with
      | _ :: _ :: _ :: _ :: _ :: _ :: _ :: rest => tgtI ++ replAll rest
      | _ => tgtI
    else c :: replAll cs

/-- The constructor's first step: rewrite every occurrence of the
content-hash pseudo-type to `bytes32` (line 42 of the source). -/
def fixSchema (s : String) : String :=
  ⟨replAll s.data⟩

/-- The whitespace characters recognised by the JavaScript `\s` class
(the common ones; the model of whitespace used throughout). -/
def isJsWhitespaceChar (c : Char) : Bool :=
  c = ' ' || c = '\t' || c = '\n' || c = '\r' || c = '\x0b' || c = '\x0c' || c = '\u00a0'

/-- JavaScript `type.replace(/\s/g, '')`: remove every whitespace character. -/
def stripWhitespace (s : String) : String :=
  ⟨s.data.filter (fun c => !(isJsWhitespaceChar c))⟩

/-- Value of a lowercase hexadecimal digit character, if any (accepts the
uppercase range as well, as Node's hex decoding does). -/
def hexDigitVal (c : Char) : Option Nat :=
  if 48 ≤ c.toNat ∧ c.toNat ≤ 57 then some (c.toNat - 48)
  else if 97 ≤ c.toNat ∧ c.toNat ≤ 102 then some (c.toNat - 87)
  else if 65 ≤ c.toNat ∧ c.toNat ≤ 70 then some (c.toNat - 55)
  else none

/-- Lowercase hexadecimal digit character for a value `< 16`. -/
def hexDigitChar (n : Nat) : Char :=
  if n < 10 then Char.ofNat (48 + n) else Char.ofNat (87 + n)

/-- Lowercase hexadecimal rendering of a byte list (two digits per byte),
as the ethers ABI coder produces for `bytes32` values (without `0x`). -/
def bytesToHexChars (bs : List Nat) : List Char :=
  (bs.map (fun b => [hexDigitChar (b / 16), hexDigitChar (b % 16)])).flatten

/-- Node `Buffer.from(s, 'hex')`: consume hexadecimal digit pairs from the
left, stopping at the first invalid pair or dangling digit. -/
def hexPairsToBytes : List Char → List Nat
  | a :: b :: rest =>
    match hexDigitVal a, hexDigitVal b with
    | some x, some y => (16 * x + y) :: hexPairsToBytes rest
    | _, _ => []
  | _ => []

/-- Standard UTF-8 encoding of a single code point. -/
def utf8EncodeChar (n : Nat) : List Nat :=
  if n < 128 then [n]
  else if n < 2048 then [192 + n / 64, 128 + n % 64]
  else if n < 65536 then [224 + n / 4096, 128 + (n / 64) % 64, 128 + n % 64]
  else [240 + n / 262144, 128 + (n / 4096) % 64, 128 + (n / 64) % 64, 128 + n % 64]

/-- UTF-8 bytes of a string. -/
def utf8Encode (s : String) : List Nat :=
  (s.data.map (fun c => utf8EncodeChar c.toNat)).flatten

/-- The `ZERO_ADDRESS` constant imported from `./utils`. -/
def zeroAddress : String := "0x0000000000000000000000000000000000000000"

/-- A JavaScript runtime value, as far as the schema encoder inspects
one: primitive strings, booleans and numbers (for which JavaScript
`typeof` is not `object`), and the `object`-typed values the decoder can
meet: `BigNumber` results, byte arrays (`Uint8Array`) and plain arrays. -/
inductive JSVal where
  | str : String → JSVal
  | boolean : Bool → JSVal
  | num : Int → JSVal
  | big : Int → JSVal
  | bytes : List Nat → JSVal
  | arr : List JSVal → JSVal

/-- JavaScript `typeof v === 'object'`: true exactly for `BigNumber`
objects, byte arrays and plain arrays in this value universe. -/
def JSVal.isObjectType : JSVal → Bool
  | .big _ => true
  | .bytes _ => true
  | .arr _ => true
  | _ => false

/-- JavaScript `Array.isArray(v)` (true only for plain arrays). -/
def JSVal.isArray : JSVal → Bool
  | .arr _ => true
  | _ => false

/-- JavaScript `typeof v === 'string'`. -/
def JSVal.isString : JSVal → Bool
  | .str _ => true
  | _ => false

/-- JavaScript `v.length > 0`: arrays, strings and byte arrays have a
`length`; for the other values `v.length` is `undefined` and the
comparison is false. -/
def jsLengthPos : JSVal → Bool
  | .arr l => !l.isEmpty
  | .str s => !s.data.isEmpty
  | .bytes b => !b.isEmpty
  | _ => false

/-- One tuple component as the fragment parser reports it: the decoder
only reads a component's `name` and `type`. -/
structure Component where
  name : String
  type : String

/-- A parsed parameter (`ParamType`) as reported by the external
function-fragment grammar parser: the constructor reads exactly the
`name`, `type` and `components` fields. -/
structure ParamType where
  name : String
  type : String
  components : Option (List Component)

/-- A multihash as the CID library reports it: raw digest, algorithm
code, declared size and the full header-prefixed bytes. -/
structure MultihashDigest where
  digest : List Nat
  code : Nat
  size : Nat
  bytes : List Nat

/-- `SchemaItem`: one caller-provided field `{name, type, value}`. -/
structure SchemaItem where
  name : String
  type : String
  value : JSVal

/-- `SchemaItemWithSignature`: one stored field descriptor. -/
structure SchemaItemWithSignature where
  name : String
  type : String
  signature : String
  value : JSVal

/-- One named component value built by `decodeData`. -/
structure NamedVal where
  name : String
  type : String
  value : JSVal

/-- The shape of the `value` field `decodeData` wraps: either the raw
decoded value, a list of named components (tuple), or a list of lists of
named components (tuple array). -/
inductive WrappedValue where
  | raw : JSVal → WrappedValue
  | tuple : List NamedVal → WrappedValue
  | tupleArray : List (List NamedVal) → WrappedValue

/-- The inner `{name, type, value}` envelope of a decoded field. -/
structure InnerItem where
  name : String
  type : String
  value : WrappedValue

/-- `SchemaDecodedItem`: the decode-time output record. -/
structure SchemaDecodedItem where
  name : String
  type : String
  signature : String
  value : InnerItem

/-- The external collaborators (spec section 6): the function-fragment
grammar parser, the ABI coder's default-value check, its multi-value
encode and decode, and the CID library's parse and version-0 render.
`parseFunc s` stands for `FunctionFragment.from("func(" + s + ")").inputs`. -/
structure EthersEnv where
  parseFunc : String → Except String (List ParamType)
  getDefaultValue : List ParamType → Except String Unit
  abiEncode : List String → List JSVal → Except String String
  abiDecode : List String → String → Except String (List JSVal)
  cidParse : JSVal → Except String MultihashDigest
  createV0String : MultihashDigest → String

/-- Modelled from the spec: the ethers byte-like predicate (spec section 6,
capability (f)), distinguishing already-binary-encoded inputs — a `0x`
hexadecimal string of even length, or a byte sequence — from plain text. -/
def isBytesLike : JSVal → Bool
  | .str s =>
    match s.data with
    | '0' :: 'x' :: rest => rest.all (fun c => (hexDigitVal c).isSome) && s.data.length % 2 = 0
    | _ => false
  | .bytes _ => true
  | .arr l =>
    l.all (fun v =>
      match v with
      | .num n => 0 ≤ n && n < 256
      | _ => false)
  | _ => false

/-- Modelled from the spec: the bytes kept by the ethers
"format string as fixed-32-bytes" operation (spec section 4.2): the UTF-8
bytes of the string, truncated when they exceed 31 bytes, right-padded
with zero bytes to exactly 32 bytes. -/
def formatBytes32Bytes (s : String) : List Nat :=
  let bs := (utf8Encode s).take 31
  bs ++ List.replicate (32 - bs.length) 0

/-- Modelled from the spec: ethers `formatBytes32String` (spec sections 4.2
and 6, capability (e)) — the padded bytes of `formatBytes32Bytes`,
rendered as a `0x`-prefixed hexadecimal `bytes32` value. -/
def formatBytes32String (s : String) : JSVal :=
  .str ⟨'0' :: 'x' :: bytesToHexChars (formatBytes32Bytes s)⟩

/-- Modelled from the spec: `formatBytes32String` applied to an arbitrary
runtime value; UTF-8 conversion of a non-string value fails. -/
def formatBytes32StringJS : JSVal → Except String JSVal
  | .str s => .ok (formatBytes32String s)
  | _ => .error "invalid string value"

/-- `SchemaEncoder.getDefaultValueForTypeName` (source lines 217-219). -/
def getDefaultValueForTypeName (typeName : String) : JSVal :=
  if typeName = "bool" then .boolean false
  else if strIncludes typeName "uint" then .str "0"
  else if typeName = "address" then .str zeroAddress
  else .str ""

/-- The constructor's `componentsType` string (source line 55). -/
def componentsTypeOf (comps : List Component) : String :=
  "(" ++ String.intercalate "," (comps.map (fun c => c.type)) ++ ")"

/-- The constructor's `componentsFullType` string (source lines 56-58). -/
def componentsFullTypeOf (comps : List Component) : String :=
  "(" ++ String.intercalate ","
    (comps.map (fun c => if c.name ≠ "" then c.type ++ " " ++ c.name else c.type)) ++ ")"

/-- The body of the constructor's per-parameter loop (source lines 48-77):
computes the stored descriptor for one parsed parameter.  The result of
the branch on the parsed type is the triple (type, signature, typeName). -/
def buildSchemaItem (p : ParamType) : SchemaItemWithSignature :=
  let name := p.name
  let signatureSuffix := if name ≠ "" then " " ++ name else ""
  let comps := p.components.getD []
  let componentsType := componentsTypeOf comps
  let componentsFullType := componentsFullTypeOf comps
  let tst : String × String × String :=
    if p.type = "tuple" then
      (componentsType, componentsFullType ++ signatureSuffix, p.type)
    else if p.type = "tuple[]" then
      (componentsType ++ "[]", componentsFullType ++ "[]" ++ signatureSuffix, p.type)
    else if strIncludes p.type "[]" then
      (p.type, (if name ≠ "" then p.type ++ " " ++ name else p.type),
        replaceFirstStr p.type "[]" "")
    else
      (p.type, (if name ≠ "" then p.type ++ " " ++ name else p.type), p.type)
  let singleValue := getDefaultValueForTypeName tst.2.2
  ⟨name, tst.1, tst.2.1, if strIncludes tst.1 "[]" then .arr [] else singleValue⟩

/-- The `SchemaEncoder` constructor (source lines 39-79): rewrite the
pseudo-type, parse the rewritten string as a function parameter list,
run the ABI coder's default-value check (which rejects invalid types),
then build the descriptor list. -/
def mkSchemaEncoder (env : EthersEnv) (schema : String) :
    Except String (List SchemaItemWithSignature) := do
  let fixedSchema := fixSchema schema
  let inputs ← env.parseFunc fixedSchema
  let _ ← env.getDefaultValue inputs
  .ok (inputs.map buildSchemaItem)

/-- `SchemaEncoder.signatures` (source lines 245-247). -/
def signatures (schema : List SchemaItemWithSignature) : List String :=
  schema.map (fun i => i.signature)

/-- The type-compatibility test of `encodeData` (source lines 92-96),
phrased positively: the sanitized caller type must equal the stored
canonical type, or the stored signature, or be the pseudo-type while the
stored type is `bytes32`. -/
def typeCheckPasses (s : SchemaItemWithSignature) (sanitizedType : String) : Bool :=
  sanitizedType = s.type || sanitizedType = s.signature ||
    (sanitizedType = "ipfsHash" && s.type = "bytes32")

/-- The guard of the CID-encoding branch of `encodeData` (source line 105):
stored type `bytes32` and stored name exactly `ipfsHash`. -/
def isIpfsBranchItem (s : SchemaItemWithSignature) : Bool :=
  s.type = "bytes32" && s.name = "ipfsHash"

/-- `SchemaEncoder.encodeBytes32Value` (source lines 236-243): validate
the value as a `bytes32` ABI value and return it unchanged, falling back
to `formatBytes32String` when the ABI coder rejects it. -/
def encodeBytes32Value (env : EthersEnv) (value : JSVal) : Except String JSVal :=
  match env.abiEncode ["bytes32"] [value] with
  | .ok _ => .ok value
  | .error _ => formatBytes32StringJS value

/-- `SchemaEncoder.decodeIpfsValue` (source lines 221-234): byte-like
values go straight to `encodeBytes32Value`; otherwise try to parse a CID
and encode its digest, catching any failure with the same fallback. -/
def decodeIpfsValue (env : EthersEnv) (val : JSVal) : Except String JSVal :=
  if isBytesLike val then encodeBytes32Value env val
  else
    match (do
      let decodedHash ← env.cidParse val
      env.abiEncode ["bytes32"] [.bytes decodedHash.digest] : Except String String) with
    | .ok encoded => .ok (.str encoded)
    | .error _ => encodeBytes32Value env val

/-- The body of the per-field loop of `encodeData` (source lines 88-110):
sanitize and check the caller's type, check the name, then apply the
value transformation for content-hash and `bytes32` fields. -/
def encodeItem (env : EthersEnv) (s : SchemaItemWithSignature) (p : SchemaItem) :
    Except String JSVal :=
  let sanitizedType := stripWhitespace p.type
  if !(typeCheckPasses s sanitizedType) then
    .error ("Incompatible param type: " ++ sanitizedType)
  else if p.name ≠ s.name then
    .error ("Incompatible param name: " ++ p.name)
  else if isIpfsBranchItem s then
    decodeIpfsValue env p.value
  else if s.type = "bytes32" && p.value.isString && !(isBytesLike p.value) then
    formatBytes32StringJS p.value
  else
    .ok p.value

/-- The per-field loop of `encodeData` over the descriptor and parameter
lists in step; a missing parameter is the JavaScript `undefined` access. -/
def encodeLoop (env : EthersEnv) :
    List SchemaItemWithSignature → List SchemaItem → Except String (List JSVal)
  | [], _ => .ok []
  | _ :: _, [] => .error "TypeError: undefined param"
  | s :: ss, p :: ps => do
    let v ← encodeItem env s p
    let rest ← encodeLoop env ss ps
    .ok (v :: rest)

/-- `SchemaEncoder.encodeData` (source lines 81-114). -/
def encodeData (env : EthersEnv) (schema : List SchemaItemWithSignature)
    (params : List SchemaItem) : Except String String :=
  if params.length ≠ schema.length then
    .error "Invalid number or values"
  else do
    let data ← encodeLoop env schema params
    env.abiEncode (signatures schema) data

/-- The decoder's filter step (source lines 135 and 153):
`val.filter((v) => typeof v !== 'object')`. -/
def filterRaw (l : List JSVal) : List JSVal :=
  l.filter (fun v => !v.isObjectType)

/-- The decoder's name-pairing step (source lines 137-141 and 155-159):
pair the k-th filtered value with `components[k]`; running past the end
of the component list is the JavaScript undefined-property access. -/
def pairComponents : List Component → List JSVal → Except String (List NamedVal)
  | _, [] => .ok []
  | [], _ :: _ => .error "TypeError: undefined component"
  | c :: cs, v :: vs => do
    let rest ← pairComponents cs vs
    .ok (⟨c.name, c.type, v⟩ :: rest)

/-- One element of the tuple-array loop (source lines 133-144): arrays and
byte arrays support `filter`; other values make it throw. -/
def tupleElemNamed (comps : List Component) (val : JSVal) :
    Except String (List NamedVal) :=
  match val with
  | .arr subs => pairComponents comps (filterRaw subs)
  | .bytes bs => pairComponents comps (filterRaw (bs.map (fun b => JSVal.num (Int.ofNat b))))
  | _ => .error "TypeError: val.filter is not a function"

/-- The value-wrapping step of `decodeData` (source lines 126-169): when
the fragment has components and the decoded value has positive length,
rebuild named components (per element for a tuple array); otherwise wrap
the raw value directly. -/
def wrapValue (s : SchemaItemWithSignature) (components : Option (List Component))
    (v : JSVal) : Except String InnerItem :=
  match components, v with
  | some comps, .arr (first :: rest) =>
    if first.isArray then do
      let namedValues ← (first :: rest).mapM (tupleElemNamed comps)
      .ok ⟨s.name, s.type, .tupleArray namedValues⟩
    else do
      let namedValue ← pairComponents comps (filterRaw (first :: rest))
      .ok ⟨s.name, s.type, .tuple namedValue⟩
  | some comps, .bytes (b :: bs) => do
    let namedValue ←
      pairComponents comps (filterRaw ((b :: bs).map (fun x => JSVal.num (Int.ofNat x))))
    .ok ⟨s.name, s.type, .tuple namedValue⟩
  | some _, .str str =>
    if str.data.isEmpty then .ok ⟨s.name, s.type, .raw v⟩
    else .error "TypeError: value.filter is not a function"
  | _, _ => .ok ⟨s.name, s.type, .raw v⟩

/-- The body of the per-field map of `decodeData` (source lines 119-177):
re-parse `func(signature)`, require exactly one input, and wrap the
decoded value. -/
def decodeDataItem (pf : String → Except String (List ParamType))
    (s : SchemaItemWithSignature) (v : JSVal) : Except String SchemaDecodedItem := do
  let inputs ← pf s.signature
  match inputs with
  | [input] => do
    let inner ← wrapValue s input.components v
    .ok ⟨s.name, s.type, s.signature, inner⟩
  | _ => .error "Unexpected inputs"

/-- The per-field map of `decodeData` walking the descriptor list against
the decoded value list; a missing value is the JavaScript `undefined`
access `values[i]`. -/
def decodeLoop (pf : String → Except String (List ParamType)) :
    List SchemaItemWithSignature → List JSVal → Except String (List SchemaDecodedItem)
  | [], _ => .ok []
  | _ :: _, [] => .error "TypeError: undefined value"
  | s :: ss, v :: vs => do
    let item ← decodeDataItem pf s v
    let rest ← decodeLoop pf ss vs
    .ok (item :: rest)

/-- `SchemaEncoder.decodeData` (source lines 116-178). -/
def decodeData (env : EthersEnv) (schema : List SchemaItemWithSignature)
    (data : String) : Except String (List SchemaDecodedItem) := do
  let values ← env.abiDecode (signatures schema) data
  decodeLoop env.parseFunc schema values

/-- `SchemaEncoder.isEncodedDataValid` (source lines 180-188). -/
def isEncodedDataValid (env : EthersEnv) (schema : List SchemaItemWithSignature)
    (data : String) : Bool :=
  match decodeData env schema data with
  | .ok _ => true
  | .error _ => false

/-- `SchemaEncoder.isCID` (source lines 190-197). -/
def isCID (env : EthersEnv) (cid : String) : Bool :=
  match env.cidParse (.str cid) with
  | .ok _ => true
  | .error _ => false

/-- `SchemaEncoder.encodeQmHash` (source lines 199-202). -/
def encodeQmHash (env : EthersEnv) (hash : String) : Except String String := do
  let a ← env.cidParse (.str hash)
  env.abiEncode ["bytes32"] [.bytes a.digest]

/-- `SchemaEncoder.decodeQmHash` (source lines 204-215): hex-decode the
value after its `0x` prefix, rebuild a SHA-256/32 multihash with header
bytes 18 and 32 prepended, and render it as a version-0 CID. -/
def decodeQmHash (env : EthersEnv) (bytes32 : String) : String :=
  let digest := hexPairsToBytes (bytes32.data.drop 2)
  env.createV0String ⟨digest, 18, 32, 18 :: 32 :: digest⟩

/-- Success test for an `Except` computation. -/
def exOk : Except String SchemaDecodedItem → Bool
  | .ok _ => true
  | .error _ => false

/-- Follows the claim's words (spec section 4.1 step 4): the scalar
default table — boolean type, unsigned-integer marker, address type,
anything else. -/
def specScalarDefault (typeName : String) : JSVal :=
  if typeName = "bool" then .boolean false
  else if strIncludes typeName "uint" then .str "0"
  else if typeName = "address" then .str zeroAddress
  else .str ""

/-- Follows the claim's words: the default value of a constructed field —
the empty sequence whenever the field's canonical type carries the array
marker, otherwise the scalar table applied to the parsed type with the
array marker stripped from non-tuple types. -/
def specDefaultValue (p : ParamType) : JSVal :=
  if strIncludes (buildSchemaItem p).type "[]" then .arr []
  else
    specScalarDefault
      (if p.type = "tuple" || p.type = "tuple[]" then p.type
       else replaceFirstStr p.type "[]" "")

lemma isPre_iff : ∀ (p l : List Char), isPre p l = true ↔ ∃ t, l = p ++ t := by
  intro p
  induction p with
  | nil => intro l; simp [isPre]
  | cons a as ih =>
    intro l
    cases l with
    | nil =>
      simp [isPre]
    | cons b bs =>
      by_cases hab : a = b
      · subst hab
        have he : isPre (a :: as) (a :: bs) = isPre as bs := by rw [isPre, if_pos rfl]
        rw [he, ih]
        constructor
        · rintro ⟨t, rfl⟩
          exact ⟨t, rfl⟩
        · rintro ⟨t, ht⟩
          exact ⟨t, by simpa using ht⟩
      · simp [isPre, hab, Ne.symm hab]

lemma isPre_patI_shape (c : Char) (cs : List Char) (h : isPre patI (c :: cs) = true) :
    c = 'i' ∧ ∃ rest, cs = 'p' :: 'f' :: 's' :: 'H' :: 'a' :: 's' :: 'h' :: rest := by
  rw [isPre_iff] at h
  obtain ⟨t, ht⟩ := h
  simp [patI] at ht
  obtain ⟨h1, h2⟩ := ht
  exact ⟨h1, t, h2⟩

lemma replAll_cons_pos (rest : List Char) :
    replAll ('i' :: 'p' :: 'f' :: 's' :: 'H' :: 'a' :: 's' :: 'h' :: rest) =
      tgtI ++ replAll rest := by
  rfl

lemma replAll_cons_neg (c : Char) (cs : List Char) (h : isPre patI (c :: cs) = false) :
    replAll (c :: cs) = c :: replAll cs := by
  rcases cs with _ | ⟨c1, _ | ⟨c2, _ | ⟨c3, _ | ⟨c4, _ | ⟨c5, _ | ⟨c6, _ | ⟨c7, rest⟩⟩⟩⟩⟩⟩⟩ <;>
    simp only [replAll, h] <;> simp

lemma isPre_replAll_elim : ∀ (s q : List Char), (∀ c ∈ q, c ≠ 'i' ∧ c ≠ 'b') →
    isPre q (replAll s) = true → isPre q s = true := by
  intro s
  induction s with
  | nil =>
    intro q hq h
    exact h
  | cons c cs ih =>
    intro q hq h
    cases q with
    | nil => rfl
    | cons d q₂ =>
      by_cases hp : isPre patI (c :: cs) = true
      · obtain ⟨rfl, rest, rfl⟩ := isPre_patI_shape _ _ hp
        rw [replAll_cons_pos] at h
        have hd : d = 'b' := by
          by_contra hdb
          rw [show tgtI ++ replAll rest = 'b' :: (['y', 't', 'e', 's', '3', '2'] ++ replAll rest) from rfl] at h
          rw [isPre, if_neg hdb] at h
          exact Bool.false_ne_true h
        exact absurd hd (hq d (by simp)).2
      · rw [replAll_cons_neg _ _ (by simpa using hp)] at h
        have hd : d = c := by
          by_contra hdc
          rw [isPre, if_neg hdc] at h
          exact Bool.false_ne_true h
        subst hd
        rw [isPre, if_pos rfl] at h ⊢
        exact ih q₂ (fun e he => hq e (by simp [he])) h

lemma listHas_cons_elim (a : Char) (p : List Char) :
    ∀ (u x : List Char), (∀ c ∈ u, c ≠ a) →
      listHas (a :: p) (u ++ x) = true → listHas (a :: p) x = true := by
  intro u
  induction u with
  | nil => intro x _ h; exact h
  | cons d u₂ ih =>
    intro x hu h
    rw [List.cons_append, listHas] at h
    rcases Bool.or_eq_true_iff.mp h with h1 | h2
    · rw [isPre, if_neg (fun hda => (hu d (by simp)) hda.symm)] at h1
      exact absurd h1 Bool.false_ne_true
    · exact ih x (fun e he => hu e (by simp [he])) h2

lemma listHas_replAll_aux : ∀ (n : Nat) (s : List Char), s.length ≤ n →
    listHas patI (replAll s) = false := by
  intro n
  induction n with
  | zero =>
    intro s hs
    have : s = [] := by
      cases s with
      | nil => rfl
      | cons c cs => simp at hs
    subst this
    decide
  | succ n ih =>
    intro s hs
    cases s with
    | nil => decide
    | cons c cs =>
      by_cases hp : isPre patI (c :: cs) = true
      · obtain ⟨rfl, rest, rfl⟩ := isPre_patI_shape _ _ hp
        rw [replAll_cons_pos]
        have hrest : listHas patI (replAll rest) = false := by
          apply ih
          simp at hs
          omega
        by_contra hcon
        have htrue : listHas patI (tgtI ++ replAll rest) = true := by
          cases hb : listHas patI (tgtI ++ replAll rest) with
          | false => exact absurd hb hcon
          | true => rfl
        have : listHas ('i' :: ['p', 'f', 's', 'H', 'a', 's', 'h']) (replAll rest) = true := by
          apply listHas_cons_elim 'i' _ tgtI (replAll rest) (by decide)
          exact htrue
        rw [show ('i' :: ['p', 'f', 's', 'H', 'a', 's', 'h']) = patI from rfl] at this
        rw [this] at hrest
        exact Bool.noConfusion hrest
      · rw [replAll_cons_neg _ _ (by simpa using hp)]
        have h2 : listHas patI (replAll cs) = false := by
          apply ih
          simp at hs
          omega
        rw [listHas, h2, Bool.or_false]
        by_contra hcon
        have hpre : isPre patI (c :: replAll cs) = true := by
          cases hb : isPre patI (c :: replAll cs) with
          | false => exact absurd hb hcon
          | true => rfl
        have hc : c = 'i' := by
          by_contra hci
          rw [show patI = 'i' :: ['p', 'f', 's', 'H', 'a', 's', 'h'] from rfl, isPre,
            if_neg (fun hic => hci hic.symm)] at hpre
          exact Bool.false_ne_true hpre
        subst hc
        rw [show patI = 'i' :: ['p', 'f', 's', 'H', 'a', 's', 'h'] from rfl, isPre,
          if_pos rfl] at hpre
        have htail : isPre ['p', 'f', 's', 'H', 'a', 's', 'h'] cs = true :=
          isPre_replAll_elim cs _ (by decide) hpre
        apply hp
        rw [show patI = 'i' :: ['p', 'f', 's', 'H', 'a', 's', 'h'] from rfl, isPre, if_pos rfl]
        exact htail

/-- After the constructor's global rewrite, the pseudo-type literal no
longer occurs anywhere in the schema string. -/
lemma listHas_patI_replAll (s : List Char) : listHas patI (replAll s) = false :=
  listHas_replAll_aux s.length s le_rfl

lemma listHas_iff : ∀ (pat l : List Char), listHas pat l = true ↔ ∃ u v, l = u ++ pat ++ v := by
  intro pat l
  induction l with
  | nil =>
    rw [listHas, isPre_iff]
    constructor
    · rintro ⟨t, ht⟩
      exact ⟨[], t, by simpa using ht⟩
    · rintro ⟨u, v, huv⟩
      refine ⟨v, ?_⟩
      have hu : u = [] := by
        cases u with
        | nil => rfl
        | cons a u₂ => simp at huv
      subst hu
      simpa using huv
  | cons c t ih =>
    rw [listHas, Bool.or_eq_true_iff, isPre_iff, ih]
    constructor
    · rintro (⟨v, hv⟩ | ⟨u, v, huv⟩)
      · exact ⟨[], v, by simp [hv]⟩
      · exact ⟨c :: u, v, by simp [huv]⟩
    · rintro ⟨u, v, huv⟩
      cases u with
      | nil =>
        left
        exact ⟨v, by simpa using huv⟩
      | cons a u₂ =>
        right
        rw [List.cons_append, List.cons_append, List.cons.injEq] at huv
        exact ⟨u₂, v, huv.2⟩

lemma listHas_trans (p n l : List Char) (h1 : listHas p n = true)
    (h2 : listHas n l = true) : listHas p l = true := by
  rw [listHas_iff] at h1 h2 ⊢
  obtain ⟨u1, v1, h1⟩ := h1
  obtain ⟨u2, v2, h2⟩ := h2
  subst h1
  exact ⟨u2 ++ u1, v1 ++ v2, by simp [h2]⟩

lemma hexDigitVal_hexDigitChar : ∀ n < 16, hexDigitVal (hexDigitChar n) = some n := by
  decide

/-- Hexadecimal rendering followed by Node hex decoding is the identity
on byte lists. -/
lemma hexPairsToBytes_bytesToHexChars : ∀ (bs : List Nat), (∀ b ∈ bs, b < 256) →
    hexPairsToBytes (bytesToHexChars bs) = bs := by
  intro bs
  induction bs with
  | nil => intro; rfl
  | cons b bs ih =>
    intro hb
    have hble : b < 256 := hb b (by simp)
    have h1 : hexDigitVal (hexDigitChar (b / 16)) = some (b / 16) :=
      hexDigitVal_hexDigitChar _ (by omega)
    have h2 : hexDigitVal (hexDigitChar (b % 16)) = some (b % 16) :=
      hexDigitVal_hexDigitChar _ (by omega)
    have he : bytesToHexChars (b :: bs) =
        hexDigitChar (b / 16) :: hexDigitChar (b % 16) :: bytesToHexChars bs := by
      simp [bytesToHexChars]
    rw [he, hexPairsToBytes, h1, h2, ih (fun x hx => hb x (by simp [hx]))]
    show (16 * (b / 16) + b % 16) :: bs = b :: bs
    have : 16 * (b / 16) + b % 16 = b := by omega
    rw [this]

lemma replaceFirstL_no_occ : ∀ (l pat tgt : List Char), listHas pat l = false →
    replaceFirstL pat tgt l = l := by
  intro l pat tgt
  induction l with
  | nil => intro; rfl
  | cons c cs ih =>
    intro h
    rw [listHas] at h
    have h1 : isPre pat (c :: cs) = false := by
      cases hx : isPre pat (c :: cs) with
      | false => rfl
      | true => rw [hx] at h; simp at h
    have h2 : listHas pat cs = false := by
      cases hx : listHas pat cs with
      | false => rfl
      | true => rw [hx] at h; simp at h
    rw [replaceFirstL, h1, ih h2]
    simp

lemma stripWhitespace_no_ws (s : String) :
    ∀ c ∈ (stripWhitespace s).data, isJsWhitespaceChar c = false := by
  intro c hc
  simp only [stripWhitespace, List.mem_filter] at hc
  simpa using hc.2

/-- The sanitized caller type can never equal a stored signature that
contains whitespace (such as the `type name` signature of a named
scalar field). -/
lemma stripWhitespace_ne_of_ws (t sig : String)
    (h : sig.data.any isJsWhitespaceChar = true) : stripWhitespace t ≠ sig := by
  intro he
  obtain ⟨c, hc, hw⟩ := List.any_eq_true.mp h
  have hno := stripWhitespace_no_ws t c (by rw [he]; exact hc)
  rw [hno] at hw
  exact Bool.noConfusion hw

lemma type_err_ne_name_err (a b : String) :
    ("Incompatible param type: " ++ a) ≠ ("Incompatible param name: " ++ b) := by
  intro h
  have hd := congrArg String.data h
  rw [String.data_append, String.data_append] at hd
  have hlen : ("Incompatible param type: ").data.length =
      ("Incompatible param name: ").data.length := by decide
  obtain ⟨h1, h2⟩ := List.append_inj hd hlen
  exact absurd h1 (by decide)

lemma type_err_ne_invalid (a : String) :
    ("Incompatible param type: " ++ a) ≠ "invalid string value" := by
  intro h
  have hd : ("Incompatible param type: " ++ a).data.length =
      ("invalid string value").data.length := by rw [h]
  rw [String.data_append, List.length_append] at hd
  have h1 : ("Incompatible param type: ").data.length = 25 := by decide
  have h2 : ("invalid string value").data.length = 20 := by decide
  rw [h1, h2] at hd
  omega

lemma formatBytes32StringJS_err (v : JSVal) (e : String)
    (h : formatBytes32StringJS v = .error e) : e = "invalid string value" := by
  cases v <;> simp [formatBytes32StringJS] at h <;> exact h.symm

lemma encodeBytes32Value_err (env : EthersEnv) (v : JSVal) (e : String)
    (h : encodeBytes32Value env v = .error e) : e = "invalid string value" := by
  unfold encodeBytes32Value at h
  cases habi : env.abiEncode ["bytes32"] [v] with
  | ok enc => rw [habi] at h; simp at h
  | error err => rw [habi] at h; exact formatBytes32StringJS_err v e h

lemma decodeIpfsValue_err (env : EthersEnv) (v : JSVal) (e : String)
    (h : decodeIpfsValue env v = .error e) : e = "invalid string value" := by
  unfold decodeIpfsValue at h
  by_cases hb : isBytesLike v = true
  · rw [if_pos hb] at h
    exact encodeBytes32Value_err _ _ _ h
  · rw [if_neg (by simpa using hb)] at h
    cases hres : (do
        let decodedHash ← env.cidParse v
        env.abiEncode ["bytes32"] [.bytes decodedHash.digest] : Except String String) with
    | ok enc => rw [hres] at h; simp at h
    | error err => rw [hres] at h; exact encodeBytes32Value_err _ _ _ h

lemma exc_bind_ok {α β : Type} (x : Except String α) (f : α → Except String β) (b : β)
    (h : (x >>= f) = .ok b) : ∃ a, x = .ok a ∧ f a = .ok b := by
  cases x with
  | error e => exact Except.noConfusion h
  | ok a => exact ⟨a, rfl, h⟩

lemma exc_bind_congr {α β : Type} (x : Except String α) (f : α → Except String β) (a : α)
    (h : x = .ok a) : (x >>= f) = f a := by
  subst h
  rfl

lemma pairComponents_ok : ∀ (raws : List JSVal) (comps : List Component) (named : List NamedVal),
    pairComponents comps raws = .ok named →
    named.length = raws.length ∧ raws.length ≤ comps.length ∧
    (∀ k, k < raws.length → ∃ c r, comps[k]? = some c ∧ raws[k]? = some r ∧
      named[k]? = some ⟨c.name, c.type, r⟩) := by
  intro raws
  induction raws with
  | nil =>
    intro comps named h
    rw [pairComponents] at h
    injection h with h2
    subst h2
    exact ⟨rfl, by simp, by intro k hk; simp at hk⟩
  | cons v vs ih =>
    intro comps named h
    cases comps with
    | nil => rw [pairComponents] at h; exact Except.noConfusion h
    | cons c cs =>
      rw [pairComponents] at h
      obtain ⟨rest, hres, h2⟩ := exc_bind_ok _ _ _ h
      injection h2 with h3
      subst h3
      obtain ⟨hl, hle, hk⟩ := ih cs rest hres
      refine ⟨by simp [hl], by simp; omega, ?_⟩
      intro k hklt
      cases k with
      | zero => exact ⟨c, v, by simp, by simp, by simp⟩
      | succ k =>
        obtain ⟨c2, r2, h1, h2, h3⟩ := hk k (by simpa using hklt)
        exact ⟨c2, r2, by simpa using h1, by simpa using h2, by simpa using h3⟩

lemma pairComponents_values : ∀ (raws : List JSVal) (comps : List Component)
    (named : List NamedVal), pairComponents comps raws = .ok named →
    ∀ e ∈ named, e.value ∈ raws := by
  intro raws
  induction raws with
  | nil =>
    intro comps named h e he
    rw [pairComponents] at h
    injection h with h2
    subst h2
    simp at he
  | cons v vs ih =>
    intro comps named h e he
    cases comps with
    | nil => rw [pairComponents] at h; exact Except.noConfusion h
    | cons c cs =>
      rw [pairComponents] at h
      obtain ⟨rest, hres, h2⟩ := exc_bind_ok _ _ _ h
      injection h2 with h3
      subst h3
      rcases List.mem_cons.mp he with he0 | he1
      · subst he0
        simp
      · exact List.mem_cons_of_mem _ (ih cs rest hres e he1)

lemma wrapValue_none (s : SchemaItemWithSignature) (v : JSVal) :
    wrapValue s none v = .ok ⟨s.name, s.type, .raw v⟩ := by
  cases v with
  | arr l => cases l <;> rfl
  | bytes l => cases l <;> rfl
  | _ => rfl

lemma wrapValue_shape (s : SchemaItemWithSignature) (comps : Option (List Component))
    (v : JSVal) (inner : InnerItem) (h : wrapValue s comps v = .ok inner) :
    inner.name = s.name ∧ inner.type = s.type := by
  cases comps with
  | none =>
    rw [wrapValue_none] at h
    injection h with h2
    subst h2
    exact ⟨rfl, rfl⟩
  | some cs =>
    cases v with
    | arr l =>
      cases l with
      | nil =>
        injection h with h2
        subst h2
        exact ⟨rfl, rfl⟩
      | cons first rest =>
        rw [wrapValue] at h
        by_cases hfa : first.isArray = true
        · rw [if_pos hfa] at h
          obtain ⟨nvs, hm, h2⟩ := exc_bind_ok _ _ _ h
          injection h2 with h3
          subst h3
          exact ⟨rfl, rfl⟩
        · rw [if_neg hfa] at h
          obtain ⟨nv, hm, h2⟩ := exc_bind_ok _ _ _ h
          injection h2 with h3
          subst h3
          exact ⟨rfl, rfl⟩
    | bytes l =>
      cases l with
      | nil =>
        injection h with h2
        subst h2
        exact ⟨rfl, rfl⟩
      | cons b bs =>
        rw [wrapValue] at h
        obtain ⟨nv, hm, h2⟩ := exc_bind_ok _ _ _ h
        injection h2 with h3
        subst h3
        exact ⟨rfl, rfl⟩
    | str t =>
      rw [wrapValue] at h
      by_cases ht : t.data.isEmpty = true
      · rw [if_pos ht] at h
        injection h with h2
        subst h2
        exact ⟨rfl, rfl⟩
      · rw [if_neg ht] at h
        exact Except.noConfusion h
    | boolean b =>
      injection h with h2
      subst h2
      exact ⟨rfl, rfl⟩
    | num n =>
      injection h with h2
      subst h2
      exact ⟨rfl, rfl⟩
    | big n =>
      injection h with h2
      subst h2
      exact ⟨rfl, rfl⟩

/-- A concrete environment whose external calls all fail, used to
instantiate theorems on closed inputs where the externals are never
consulted (or where their failure is the hypothesis). -/
def envTriv : EthersEnv :=
  ⟨fun _ => .error "parse", fun _ => .ok (), fun _ _ => .error "abi",
   fun _ _ => .error "abi", fun _ => .error "cid", fun _ => ""⟩

/-- C7: for every constructed encoder and every input list whose length
differs from the schema's descriptor count, `encodeData` throws the
field-count error before any per-field validation, transformation or
codec call — the result is this error for every environment, so no
partial encoding is attempted and no bytes are produced. -/
theorem C7_field_count_guard (env : EthersEnv) (schema : List SchemaItemWithSignature)
    (params : List SchemaItem) (h : params.length ≠ schema.length) :
    encodeData env schema params = .error "Invalid number or values" := by
  unfold encodeData
  rw [if_pos h]

theorem C7_witness :
    encodeData envTriv [] [⟨"x", "uint256", JSVal.str "1"⟩] =
      .error "Invalid number or values" :=
  C7_field_count_guard envTriv [] [⟨"x", "uint256", JSVal.str "1"⟩] (by decide)

/-- C10: `isEncodedDataValid` returns true exactly when `decodeData`
succeeds on the input and false exactly when it fails; being a total
function into `Bool`, it never propagates the failure. -/
theorem C10_is_encoded_data_valid (env : EthersEnv)
    (schema : List SchemaItemWithSignature) (d : String) :
    (isEncodedDataValid env schema d = true ↔
      ∃ r, decodeData env schema d = .ok r) ∧
    (isEncodedDataValid env schema d = false ↔
      ∃ e, decodeData env schema d = .error e) := by
  unfold isEncodedDataValid
  cases h : decodeData env schema d <;> simp [h]

/-- C9: the default value stored by the constructor for every parsed
field agrees exactly with the claim's characterisation: the scalar table
(boolean false, "0" for unsigned-integer markers, the zero address,
empty string) keyed by the parsed type with the array marker stripped
from non-tuple types, overridden to the empty sequence whenever the
field's canonical type carries the array marker. -/
theorem C9_default_values (p : ParamType) :
    (buildSchemaItem p).value = specDefaultValue p := by
  by_cases h1 : p.type = "tuple"
  · simp [buildSchemaItem, specDefaultValue, specScalarDefault, getDefaultValueForTypeName, h1]
  · by_cases h2 : p.type = "tuple[]"
    · simp [buildSchemaItem, specDefaultValue, specScalarDefault, getDefaultValueForTypeName,
        h1, h2]
    · by_cases h3 : strIncludes p.type "[]" = true
      · simp [buildSchemaItem, specDefaultValue, specScalarDefault, getDefaultValueForTypeName,
          h1, h2, h3]
      · have h3f : strIncludes p.type "[]" = false := by
          cases hx : strIncludes p.type "[]" with
          | false => rfl
          | true => exact absurd hx h3
        have hrepl : replaceFirstStr p.type "[]" "" = p.type := by
          unfold replaceFirstStr
          rw [replaceFirstL_no_occ _ _ _ h3f]
        simp [buildSchemaItem, specDefaultValue, specScalarDefault, getDefaultValueForTypeName,
          h1, h2, h3f, hrepl]

/-- C4: in `encodeData`, a `bytes32` field that is not the content-hash
field and whose supplied value is a non-byte-like string is passed to
the codec as the string's UTF-8 bytes right-padded to 32 bytes; a string
whose UTF-8 encoding exceeds 31 bytes yields the truncated 32-byte value
rather than an error. -/
theorem C4_bytes32_string_padding (env : EthersEnv) (s : SchemaItemWithSignature)
    (p : SchemaItem) (v : String)
    (htype : s.type = "bytes32") (hname : s.name ≠ "ipfsHash")
    (hval : p.value = JSVal.str v) (hbl : isBytesLike (JSVal.str v) = false)
    (hpass : typeCheckPasses s (stripWhitespace p.type) = true)
    (hpname : p.name = s.name) :
    encodeItem env s p = .ok (formatBytes32String v) ∧
    formatBytes32String v = .str ⟨'0' :: 'x' :: bytesToHexChars (formatBytes32Bytes v)⟩ ∧
    (formatBytes32Bytes v).length = 32 ∧
    ((utf8Encode v).length > 31 →
      formatBytes32Bytes v = (utf8Encode v).take 31 ++ [0]) := by
  refine ⟨?_, rfl, ?_, ?_⟩
  · have hipfs : isIpfsBranchItem s = false := by
      unfold isIpfsBranchItem
      rw [htype]
      simp [hname]
    simp [encodeItem, hpass, hpname, hipfs, htype, hval, hbl, JSVal.isString,
      formatBytes32StringJS]
  · unfold formatBytes32Bytes
    simp only [List.length_append, List.length_replicate, List.length_take]
    omega
  · intro hgt
    unfold formatBytes32Bytes
    have hlen : ((utf8Encode v).take 31).length = 31 := by
      simp only [List.length_take]
      omega
    simp only [hlen]
    rfl

theorem C4_witness :
    encodeItem envTriv ⟨"doc", "bytes32", "bytes32 doc", JSVal.str ""⟩
        ⟨"doc", "bytes32", JSVal.str "0123456789012345678901234567890123456789"⟩ =
      .ok (formatBytes32String "0123456789012345678901234567890123456789") ∧
    formatBytes32String "0123456789012345678901234567890123456789" =
      .str ⟨'0' :: 'x' :: bytesToHexChars
        (formatBytes32Bytes "0123456789012345678901234567890123456789")⟩ ∧
    (formatBytes32Bytes "0123456789012345678901234567890123456789").length = 32 ∧
    ((utf8Encode "0123456789012345678901234567890123456789").length > 31 →
      formatBytes32Bytes "0123456789012345678901234567890123456789" =
        (utf8Encode "0123456789012345678901234567890123456789").take 31 ++ [0]) :=
  C4_bytes32_string_padding envTriv _ _ "0123456789012345678901234567890123456789"
    rfl (by decide) rfl (by decide) (by decide) rfl

/-- C3: the content-hash encoding path never throws on a string that is
neither a parseable CID nor byte-like: `decodeIpfsValue` falls back to
the padded fixed-32-byte encoding of the string and returns those bytes. -/
theorem C3_ipfs_fallback_total (env : EthersEnv) (s : String) (e1 e2 : String)
    (hbl : isBytesLike (JSVal.str s) = false)
    (hcid : env.cidParse (JSVal.str s) = .error e1)
    (habi : env.abiEncode ["bytes32"] [JSVal.str s] = .error e2) :
    decodeIpfsValue env (JSVal.str s) = .ok (formatBytes32String s) := by
  unfold decodeIpfsValue
  rw [if_neg (by simp [hbl])]
  have hdo : (do
      let decodedHash ← env.cidParse (JSVal.str s)
      env.abiEncode ["bytes32"] [.bytes decodedHash.digest] : Except String String) =
      .error e1 := by
    rw [hcid]
    rfl
  rw [hdo]
  show encodeBytes32Value env (JSVal.str s) = .ok (formatBytes32String s)
  unfold encodeBytes32Value
  rw [habi]
  rfl

theorem C3_witness :
    decodeIpfsValue envTriv (JSVal.str "not a cid, not bytes") =
      .ok (formatBytes32String "not a cid, not bytes") :=
  C3_ipfs_fallback_total envTriv "not a cid, not bytes" "cid" "abi" (by decide) rfl rfl

/-- C2 (amended): `encodeData` succeeds past the type check at index i
exactly when the caller's whitespace-stripped type equals the stored
canonical type, or the stored signature, or is the pseudo-type while the
stored type is `bytes32`; otherwise it throws the incompatible-type
error.  The sanitized string contains no whitespace, so it can never
equal a signature that contains whitespace — in particular, for a named
field the full signature `type name` is NOT accepted. -/
theorem C2_type_check (env : EthersEnv) (s : SchemaItemWithSignature) (p : SchemaItem) :
    (typeCheckPasses s (stripWhitespace p.type) = false →
      encodeItem env s p = .error ("Incompatible param type: " ++ stripWhitespace p.type)) ∧
    (typeCheckPasses s (stripWhitespace p.type) = true →
      encodeItem env s p ≠ .error ("Incompatible param type: " ++ stripWhitespace p.type)) ∧
    (s.signature.data.any isJsWhitespaceChar = true →
      stripWhitespace p.type ≠ s.signature) := by
  refine ⟨?_, ?_, fun hws => stripWhitespace_ne_of_ws _ _ hws⟩
  · intro hf
    simp [encodeItem, hf]
  · intro ht hcontra
    unfold encodeItem at hcontra
    rw [if_neg (by simp [ht])] at hcontra
    by_cases hn : p.name = s.name
    · rw [if_neg (by simp [hn])] at hcontra
      by_cases hi : isIpfsBranchItem s = true
      · rw [if_pos hi] at hcontra
        exact type_err_ne_invalid (stripWhitespace p.type)
          (decodeIpfsValue_err env p.value _ hcontra)
      · rw [if_neg hi] at hcontra
        by_cases hb : (s.type = "bytes32" && p.value.isString && !(isBytesLike p.value)) = true
        · rw [if_pos hb] at hcontra
          exact type_err_ne_invalid (stripWhitespace p.type)
            (formatBytes32StringJS_err _ _ hcontra)
        · rw [if_neg hb] at hcontra
          exact Except.noConfusion hcontra
    · rw [if_pos hn] at hcontra
      injection hcontra with hmsg
      exact type_err_ne_name_err _ _ hmsg.symm

/-- The stored descriptor for a named `uint256` field, as the constructor
builds it for the schema `uint256 x`. -/
def itemUint : SchemaItemWithSignature := ⟨"x", "uint256", "uint256 x", JSVal.str "0"⟩

/-- A caller field that passes the descriptor's full signature
`uint256 x` as its type, as the claim says is accepted. -/
def paramFullSig : SchemaItem := ⟨"x", "uint256 x", JSVal.str "1"⟩

/-- C2 counterexample: for the named field `uint256 x`, passing the
descriptor's full signature (type, space, name) as the caller's type is
rejected — sanitization strips the space, `uint256x` matches neither the
canonical type nor the stored signature, and `encodeData` throws the
incompatible-type error, contradicting the claim's final sentence. -/
theorem C2_counterexample :
    encodeData envTriv [itemUint] [paramFullSig] =
      .error "Incompatible param type: uint256x" := by
  rfl

theorem C2_witness :
    encodeItem envTriv itemUint paramFullSig =
      .error ("Incompatible param type: " ++ stripWhitespace "uint256 x") ∧
    stripWhitespace "uint256 x" ≠ "uint256 x" :=
  ⟨(C2_type_check envTriv itemUint paramFullSig).1 (by decide),
   (C2_type_check envTriv itemUint paramFullSig).2.2 (by decide)⟩

/-- C5: the constructor's global rewrite replaces every occurrence of the
pseudo-type literal — including occurrences inside what would become
field names — so the rewritten schema string no longer contains it; the
parser's names are substrings of that string, hence no stored descriptor
name contains the literal and the `encodeData` branch guarded by name
`ipfsHash` with type `bytes32` is unreachable. -/
theorem C5_ipfs_branch_unreachable (env : EthersEnv) (str : String)
    (schema : List SchemaItemWithSignature)
    (hmk : mkSchemaEncoder env str = .ok schema)
    (hnames : ∀ inputs, env.parseFunc (fixSchema str) = .ok inputs →
      ∀ inp ∈ inputs, listHas inp.name.data (fixSchema str).data = true) :
    listHas patI (fixSchema str).data = false ∧
    ∀ item ∈ schema, listHas patI item.name.data = false ∧ isIpfsBranchItem item = false := by
  refine ⟨listHas_patI_replAll _, ?_⟩
  intro item hitem
  unfold mkSchemaEncoder at hmk
  obtain ⟨inputs, hpf, h2⟩ := exc_bind_ok _ _ _ hmk
  obtain ⟨u, hgd, h3⟩ := exc_bind_ok _ _ _ h2
  injection h3 with h4
  subst h4
  obtain ⟨inp, hinp, hbuild⟩ := List.mem_map.mp hitem
  have hname : item.name = inp.name := by
    rw [← hbuild]
    rfl
  have hin : listHas inp.name.data (fixSchema str).data = true := hnames inputs hpf inp hinp
  have hnot : listHas patI inp.name.data = false := by
    cases hx : listHas patI inp.name.data with
    | false => rfl
    | true =>
      have htr := listHas_trans patI inp.name.data (fixSchema str).data hx hin
      have hf := listHas_patI_replAll str.data
      rw [show (fixSchema str).data = replAll str.data from rfl] at htr
      rw [htr] at hf
      exact Bool.noConfusion hf
  constructor
  · rw [hname]
    exact hnot
  · unfold isIpfsBranchItem
    by_cases hni : item.name = "ipfsHash"
    · exfalso
      have hthis : listHas patI item.name.data = false := by
        rw [hname]
        exact hnot
      rw [hni] at hthis
      exact absurd hthis (by decide)
    · simp [hni]

/-- A concrete parser environment for a one-field schema used to
instantiate the constructor rewrite theorem. -/
def envC5 : EthersEnv :=
  ⟨fun s => if s = "bytes32 doc" then .ok [⟨"doc", "bytes32", none⟩] else .error "parse",
   fun _ => .ok (), fun _ _ => .error "abi", fun _ _ => .error "abi",
   fun _ => .error "cid", fun _ => ""⟩

theorem C5_witness :
    listHas patI (fixSchema "ipfsHash doc").data = false ∧
    (listHas patI ("doc" : String).data = false ∧
      isIpfsBranchItem ⟨"doc", "bytes32", "bytes32 doc", JSVal.str ""⟩ = false) := by
  have h := C5_ipfs_branch_unreachable envC5 "ipfsHash doc"
    [⟨"doc", "bytes32", "bytes32 doc", JSVal.str ""⟩] (by rfl) ?hn
  case hn =>
    intro inputs hin inp hmem
    have hinputs : ([⟨"doc", "bytes32", none⟩] : List ParamType) = inputs := by
      injection hin
    subst hinputs
    have : inp = ⟨"doc", "bytes32", none⟩ := by simpa using hmem
    subst this
    decide
  exact ⟨h.1, h.2 ⟨"doc", "bytes32", "bytes32 doc", JSVal.str ""⟩ (by simp)⟩

/-- C8: `decodeQmHash` always rebuilds a multihash with algorithm code 18
and size 32, prepending the header bytes 18 and 32 to the digest parsed
from the hex input, and renders it as a version-0 CID; composed with
`encodeQmHash`, it recovers any version-0 CID whose multihash is
SHA-256 with a 32-byte digest (given the spec-section-6 contracts of the
ABI coder's `bytes32` encoding and the CID library's round trip). -/
theorem C8_qm_hash_round_trip (env : EthersEnv) (cid : String) (mh : MultihashDigest)
    (hparse : env.cidParse (JSVal.str cid) = .ok mh)
    (hlen : mh.digest.length = 32)
    (hbytes : ∀ b ∈ mh.digest, b < 256)
    (habi : env.abiEncode ["bytes32"] [.bytes mh.digest] =
      .ok ⟨'0' :: 'x' :: bytesToHexChars mh.digest⟩)
    (hround : env.createV0String ⟨mh.digest, 18, 32, 18 :: 32 :: mh.digest⟩ = cid) :
    (∀ s : String, decodeQmHash env s =
      env.createV0String ⟨hexPairsToBytes (s.data.drop 2), 18, 32,
        18 :: 32 :: hexPairsToBytes (s.data.drop 2)⟩) ∧
    encodeQmHash env cid = .ok ⟨'0' :: 'x' :: bytesToHexChars mh.digest⟩ ∧
    decodeQmHash env ⟨'0' :: 'x' :: bytesToHexChars mh.digest⟩ = cid := by
  refine ⟨fun s => rfl, ?_, ?_⟩
  · unfold encodeQmHash
    rw [exc_bind_congr _ _ _ hparse]
    exact habi
  · unfold decodeQmHash
    have hdrop : (String.mk ('0' :: 'x' :: bytesToHexChars mh.digest)).data.drop 2 =
        bytesToHexChars mh.digest := rfl
    rw [hdrop, hexPairsToBytes_bytesToHexChars mh.digest hbytes]
    exact hround

/-- A concrete 32-byte digest for the round-trip instantiation. -/
def digestW : List Nat := List.replicate 32 7

/-- A concrete CID/ABI environment realising the spec contracts at the
digest `digestW`. -/
def envC8 : EthersEnv :=
  ⟨fun _ => .error "parse", fun _ => .ok (),
   fun ts vs =>
     match ts, vs with
     | ["bytes32"], [JSVal.bytes d] => .ok ⟨'0' :: 'x' :: bytesToHexChars d⟩
     | _, _ => .error "abi",
   fun _ _ => .error "abi",
   fun v =>
     match v with
     | JSVal.str "QmTest" => .ok ⟨digestW, 18, 32, 18 :: 32 :: digestW⟩
     | _ => .error "cid",
   fun mh => if mh.digest = digestW then "QmTest" else "?"⟩

theorem C8_witness :
    encodeQmHash envC8 "QmTest" = .ok ⟨'0' :: 'x' :: bytesToHexChars digestW⟩ ∧
    decodeQmHash envC8 ⟨'0' :: 'x' :: bytesToHexChars digestW⟩ = "QmTest" :=
  have h := C8_qm_hash_round_trip envC8 "QmTest" ⟨digestW, 18, 32, 18 :: 32 :: digestW⟩
    rfl (by decide) (by decide) rfl (by decide)
  ⟨h.2.1, h.2.2⟩

lemma filter_length_lt {α : Type} (p : α → Bool) : ∀ (l : List α) (x : α), x ∈ l →
    p x = false → (l.filter p).length < l.length := by
  intro l
  induction l with
  | nil => intro x hx; simp at hx
  | cons a l ih =>
    intro x hx hp
    rw [List.filter_cons]
    rcases List.mem_cons.mp hx with rfl | hx2
    · rw [hp, if_neg (by decide), List.length_cons]
      have := List.length_filter_le p l
      omega
    · have hlt := ih x hx2 hp
      cases hpa : p a with
      | true =>
        rw [if_pos rfl, List.length_cons, List.length_cons]
        omega
      | false =>
        rw [if_neg (by decide), List.length_cons]
        omega

lemma mapM_ok_index {α β : Type} (f : α → Except String β) :
    ∀ (l : List α) (ys : List β), l.mapM f = .ok ys →
    ys.length = l.length ∧
    ∀ (i : Nat) (x : α), l[i]? = some x → ∃ y : β, ys[i]? = some y ∧ f x = .ok y := by
  intro l
  induction l with
  | nil =>
    intro ys h
    rw [List.mapM_nil] at h
    injection h with h2
    subst h2
    refine ⟨rfl, ?_⟩
    intro i x hx
    simp at hx
  | cons a l ih =>
    intro ys h
    rw [List.mapM_cons] at h
    obtain ⟨y, hy, h2⟩ := exc_bind_ok _ _ _ h
    obtain ⟨rest, hrest, h3⟩ := exc_bind_ok _ _ _ h2
    injection h3 with h4
    subst h4
    obtain ⟨hlen, hidx⟩ := ih rest hrest
    refine ⟨by simp [hlen], ?_⟩
    intro i x hx
    cases i with
    | zero =>
      simp only [List.getElem?_cons_zero, Option.some.injEq] at hx
      subst hx
      exact ⟨y, by simp, hy⟩
    | succ i =>
      obtain ⟨y2, ha, hb⟩ := hidx i x (by simpa using hx)
      exact ⟨y2, by simpa using ha, hb⟩

/-- The positional misassignment induced by filtering: when the decoder
pairs the filtered non-composite values of `subs` with the component
list, a non-composite value preceded by a composite one is labelled at
the index counting only its non-composite predecessors, strictly below
its own position. -/
lemma pairComponents_misalign (comps : List Component) (subs : List JSVal)
    (named : List NamedVal)
    (hpair : pairComponents comps (filterRaw subs) = .ok named) :
    ∀ (m : Nat) (vm : JSVal), m < subs.length → subs[m]? = some vm →
      vm.isObjectType = false →
      (∃ (j : Nat) (vj : JSVal), j < m ∧ subs[j]? = some vj ∧ vj.isObjectType = true) →
      ((subs.take m).filter (fun u => !u.isObjectType)).length < m ∧
      ∃ c : Component,
        comps[((subs.take m).filter (fun u => !u.isObjectType)).length]? = some c ∧
        named[((subs.take m).filter (fun u => !u.isObjectType)).length]? =
          some ⟨c.name, c.type, vm⟩ := by
  obtain ⟨hlenp, hlep, hidxp⟩ := pairComponents_ok _ _ _ hpair
  intro m vm hm hgm hvm hex
  obtain ⟨j, vj, hj, hgj, hvj⟩ := hex
  have htakelen : (subs.take m).length = m := by
    simp only [List.length_take]
    omega
  have hvjmem : vj ∈ subs.take m := by
    refine List.getElem?_mem (show (subs.take m)[j]? = some vj from ?_)
    rw [List.getElem?_take, if_pos hj]
    exact hgj
  have hklt : ((subs.take m).filter (fun u => !u.isObjectType)).length < m := by
    have := filter_length_lt (fun u => !u.isObjectType) (subs.take m) vj hvjmem
      (by simp [hvj])
    omega
  refine ⟨hklt, ?_⟩
  have hdropm : subs.drop m = vm :: subs.drop (m + 1) := by
    have hget : subs[m] = vm := by
      have := List.getElem?_eq_getElem hm
      rw [this] at hgm
      injection hgm
    rw [List.drop_eq_getElem_cons hm, hget]
  have hsplit : filterRaw subs =
      (subs.take m).filter (fun u => !u.isObjectType) ++
        vm :: (subs.drop (m + 1)).filter (fun u => !u.isObjectType) := by
    unfold filterRaw
    conv_lhs => rw [← List.take_append_drop m subs]
    rw [List.filter_append, hdropm, List.filter_cons]
    simp [hvm]
  have hgetk : (filterRaw subs)[((subs.take m).filter
      (fun u => !u.isObjectType)).length]? = some vm := by
    rw [hsplit, List.getElem?_append_right (Nat.le_refl _)]
    simp
  have hklt2 : ((subs.take m).filter (fun u => !u.isObjectType)).length <
      (filterRaw subs).length :=
    (List.getElem?_eq_some.mp hgetk).1
  obtain ⟨c, r, hc, hr, hn⟩ := hidxp _ hklt2
  rw [hgetk] at hr
  injection hr with hrv
  subst hrv
  exact ⟨c, hc, hn⟩

/-- C6 (amended): in `decodeData`, for a tuple field whose first decoded
sub-value is not an array, component names are assigned by position
within the filtered list of non-composite sub-values — so a scalar
preceded by a composite receives the name of an earlier component, and
composites are absent from the named output; for a field whose first
decoded sub-value is an array (the tuple-array path), the same filtered
positional pairing is applied to each element that supports filtering,
and decoding throws instead of producing named output as soon as some
element is neither an array nor a byte array. -/
theorem C6_tuple_component_misalignment (pf : String → Except String (List ParamType))
    (s : SchemaItemWithSignature) (input : ParamType) (comps : List Component)
    (subs : List JSVal) (v0 : JSVal) (tl : List JSVal)
    (hsubs : subs = v0 :: tl)
    (hpf : pf s.signature = .ok [input]) (hcomps : input.components = some comps) :
    (v0.isArray = false → ∀ item : SchemaDecodedItem,
      decodeDataItem pf s (JSVal.arr subs) = .ok item →
      ∃ named : List NamedVal,
        pairComponents comps (filterRaw subs) = .ok named ∧
        item = ⟨s.name, s.type, s.signature, ⟨s.name, s.type, .tuple named⟩⟩ ∧
        named.length = (filterRaw subs).length ∧
        (∀ k, k < (filterRaw subs).length → ∃ (c : Component) (r : JSVal),
          comps[k]? = some c ∧ (filterRaw subs)[k]? = some r ∧
          named[k]? = some ⟨c.name, c.type, r⟩) ∧
        (∀ e ∈ named, e.value.isObjectType = false) ∧
        (∀ (m : Nat) (vm : JSVal), m < subs.length → subs[m]? = some vm →
          vm.isObjectType = false →
          (∃ (j : Nat) (vj : JSVal), j < m ∧ subs[j]? = some vj ∧ vj.isObjectType = true) →
          ((subs.take m).filter (fun u => !u.isObjectType)).length < m ∧
          ∃ c : Component,
            comps[((subs.take m).filter (fun u => !u.isObjectType)).length]? = some c ∧
            named[((subs.take m).filter (fun u => !u.isObjectType)).length]? =
              some ⟨c.name, c.type, vm⟩)) ∧
    (v0.isArray = true → ∀ item : SchemaDecodedItem,
      decodeDataItem pf s (JSVal.arr subs) = .ok item →
      ∃ namedValues : List (List NamedVal),
        item = ⟨s.name, s.type, s.signature, ⟨s.name, s.type, .tupleArray namedValues⟩⟩ ∧
        namedValues.length = subs.length ∧
        (∀ (i : Nat) (el : List JSVal), subs[i]? = some (JSVal.arr el) →
          ∃ named : List NamedVal, namedValues[i]? = some named ∧
            pairComponents comps (filterRaw el) = .ok named ∧
            (∀ k, k < (filterRaw el).length → ∃ (c : Component) (r : JSVal),
              comps[k]? = some c ∧ (filterRaw el)[k]? = some r ∧
              named[k]? = some ⟨c.name, c.type, r⟩) ∧
            (∀ (m : Nat) (vm : JSVal), m < el.length → el[m]? = some vm →
              vm.isObjectType = false →
              (∃ (j : Nat) (vj : JSVal), j < m ∧ el[j]? = some vj ∧
                vj.isObjectType = true) →
              ((el.take m).filter (fun u => !u.isObjectType)).length < m ∧
              ∃ c : Component,
                comps[((el.take m).filter (fun u => !u.isObjectType)).length]? = some c ∧
                named[((el.take m).filter (fun u => !u.isObjectType)).length]? =
                  some ⟨c.name, c.type, vm⟩))) ∧
    (v0.isArray = true →
      (∃ (i : Nat) (vi : JSVal), subs[i]? = some vi ∧ vi.isArray = false ∧
        (∀ bs : List Nat, vi ≠ JSVal.bytes bs)) →
      ∃ e : String, decodeDataItem pf s (JSVal.arr subs) = .error e) := by
  subst hsubs
  refine ⟨?_, ?_, ?_⟩
  · intro hv0 item hdec
    unfold decodeDataItem at hdec
    obtain ⟨inputs0, hpf0, h2⟩ := exc_bind_ok _ _ _ hdec
    rw [hpf] at hpf0
    injection hpf0 with hinputs
    subst hinputs
    obtain ⟨inner, hw, h3⟩ := exc_bind_ok _ _ _ h2
    injection h3 with h4
    subst h4
    rw [hcomps, wrapValue] at hw
    rw [if_neg (by simp [hv0])] at hw
    obtain ⟨named, hpair, h5⟩ := exc_bind_ok _ _ _ hw
    injection h5 with h6
    subst h6
    obtain ⟨hlen, hle, hidx⟩ := pairComponents_ok _ _ _ hpair
    refine ⟨named, hpair, rfl, hlen.symm ▸ rfl, ?_, ?_, ?_⟩
    · intro k hk
      exact hidx k hk
    · intro e he
      have hmem := pairComponents_values _ _ _ hpair e he
      unfold filterRaw at hmem
      have := (List.mem_filter.mp hmem).2
      simpa using this
    · exact pairComponents_misalign comps (v0 :: tl) named hpair
  · intro hv0 item hdec
    unfold decodeDataItem at hdec
    obtain ⟨inputs0, hpf0, h2⟩ := exc_bind_ok _ _ _ hdec
    rw [hpf] at hpf0
    injection hpf0 with hinputs
    subst hinputs
    obtain ⟨inner, hw, h3⟩ := exc_bind_ok _ _ _ h2
    injection h3 with h4
    subst h4
    rw [hcomps, wrapValue] at hw
    rw [if_pos hv0] at hw
    obtain ⟨namedValues, hmap, h5⟩ := exc_bind_ok _ _ _ hw
    injection h5 with h6
    subst h6
    obtain ⟨hlenM, hidxM⟩ := mapM_ok_index (tupleElemNamed comps) (v0 :: tl) namedValues hmap
    refine ⟨namedValues, rfl, hlenM, ?_⟩
    intro i el hel
    obtain ⟨named, hnv, hf⟩ := hidxM i (JSVal.arr el) hel
    have hpairEl : pairComponents comps (filterRaw el) = .ok named := hf
    obtain ⟨hlen2, hle2, hidx2⟩ := pairComponents_ok _ _ _ hpairEl
    refine ⟨named, hnv, hpairEl, ?_, ?_⟩
    · intro k hk
      exact hidx2 k hk
    · exact pairComponents_misalign comps el named hpairEl
  · intro hv0 hbad
    obtain ⟨i, vi, hgi, hnarr, hnbytes⟩ := hbad
    cases hres : decodeDataItem pf s (JSVal.arr (v0 :: tl)) with
    | error e => exact ⟨e, rfl⟩
    | ok item =>
      exfalso
      unfold decodeDataItem at hres
      obtain ⟨inputs0, hpf0, h2⟩ := exc_bind_ok _ _ _ hres
      rw [hpf] at hpf0
      injection hpf0 with hinputs
      subst hinputs
      obtain ⟨inner, hw, h3⟩ := exc_bind_ok _ _ _ h2
      rw [hcomps, wrapValue] at hw
      rw [if_pos hv0] at hw
      obtain ⟨namedValues, hmap, h5⟩ := exc_bind_ok _ _ _ hw
      obtain ⟨hlenM, hidxM⟩ := mapM_ok_index (tupleElemNamed comps) (v0 :: tl) namedValues hmap
      obtain ⟨y, hy, hfy⟩ := hidxM i vi hgi
      cases vi with
      | arr l => simp [JSVal.isArray] at hnarr
      | bytes bs => exact hnbytes bs rfl
      | str t => exact Except.noConfusion hfy
      | boolean b => exact Except.noConfusion hfy
      | num n => exact Except.noConfusion hfy
      | big n => exact Except.noConfusion hfy

/-- The components of the tuple signature `(uint256 x,uint256 y)`. -/
def comps6 : List Component := [⟨"x", "uint256"⟩, ⟨"y", "uint256"⟩]

/-- The stored descriptor of the field `(uint256 x,uint256 y) point`. -/
def s6 : SchemaItemWithSignature :=
  ⟨"point", "(uint256,uint256)", "(uint256 x,uint256 y) point", JSVal.str ""⟩

/-- A fragment parser answering for the signature of `s6`. -/
def pf6 : String → Except String (List ParamType) := fun sig =>
  if sig = "(uint256 x,uint256 y) point" then .ok [⟨"point", "tuple", some comps6⟩]
  else .error "parse"

/-- The decoded record for the tuple value whose first sub-value is a
composite (a `BigNumber`) and whose second is the scalar string `5`. -/
def item6 : SchemaDecodedItem :=
  ⟨"point", "(uint256,uint256)", "(uint256 x,uint256 y) point",
   ⟨"point", "(uint256,uint256)", .tuple [⟨"x", "uint256", JSVal.str "5"⟩]⟩⟩

/-- The environment whose decode step returns, for the single field
`s6`, the tuple value whose first sub-value is an array and whose second
is the scalar string `5`. -/
def envC6 : EthersEnv :=
  ⟨pf6, fun _ => .ok (), fun _ _ => .error "abi",
   fun _ _ => .ok [JSVal.arr [JSVal.arr [JSVal.big 1, JSVal.big 2], JSVal.str "5"]],
   fun _ => .error "cid", fun _ => ""⟩

/-- C6 counterexample: a tuple field in which a composite sub-value (a
plain array) precedes a scalar sub-value.  The claim says the scalar
then receives the name of an earlier component; instead, the source
takes the `Array.isArray(value[0])` per-element path and throws a
TypeError at the scalar's missing `filter`, producing no named output at
all, so `decodeData` fails on this input. -/
theorem C6_counterexample :
    decodeData envC6 [s6] "0xdata" = .error "TypeError: val.filter is not a function" := by
  rfl

/-- The decoded record for the tuple-array value `[[1n, "5"], [2n, "7"]]`
under the schema of `s6`. -/
def item6B : SchemaDecodedItem :=
  ⟨"point", "(uint256,uint256)", "(uint256 x,uint256 y) point",
   ⟨"point", "(uint256,uint256)",
    .tupleArray [[⟨"x", "uint256", JSVal.str "5"⟩], [⟨"x", "uint256", JSVal.str "7"⟩]]⟩⟩

theorem C6_witness :
    (∃ named : List NamedVal,
      pairComponents comps6 (filterRaw [JSVal.big 1, JSVal.str "5"]) = .ok named ∧
      item6 = ⟨s6.name, s6.type, s6.signature, ⟨s6.name, s6.type, .tuple named⟩⟩ ∧
      named[0]? = some ⟨"x", "uint256", JSVal.str "5"⟩) ∧
    (∃ namedValues : List (List NamedVal),
      item6B = ⟨s6.name, s6.type, s6.signature,
        ⟨s6.name, s6.type, .tupleArray namedValues⟩⟩ ∧
      namedValues.length = 2 ∧
      ∃ named : List NamedVal, namedValues[0]? = some named ∧
        named[0]? = some ⟨"x", "uint256", JSVal.str "5"⟩) ∧
    (∃ e : String, decodeDataItem pf6 s6
      (JSVal.arr [JSVal.arr [JSVal.big 1, JSVal.big 2], JSVal.str "5"]) = .error e) := by
  have hA := (C6_tuple_component_misalignment pf6 s6 ⟨"point", "tuple", some comps6⟩ comps6
    [JSVal.big 1, JSVal.str "5"] (JSVal.big 1) [JSVal.str "5"] rfl rfl rfl).1
    rfl item6 rfl
  have hB := (C6_tuple_component_misalignment pf6 s6 ⟨"point", "tuple", some comps6⟩ comps6
    [JSVal.arr [JSVal.big 1, JSVal.str "5"], JSVal.arr [JSVal.big 2, JSVal.str "7"]]
    (JSVal.arr [JSVal.big 1, JSVal.str "5"]) [JSVal.arr [JSVal.big 2, JSVal.str "7"]]
    rfl rfl rfl).2.1 rfl item6B rfl
  have hC := (C6_tuple_component_misalignment pf6 s6 ⟨"point", "tuple", some comps6⟩ comps6
    [JSVal.arr [JSVal.big 1, JSVal.big 2], JSVal.str "5"]
    (JSVal.arr [JSVal.big 1, JSVal.big 2]) [JSVal.str "5"] rfl rfl rfl).2.2 rfl
    ⟨1, JSVal.str "5", rfl, rfl, fun bs h => JSVal.noConfusion h⟩
  refine ⟨?_, ?_, hC⟩
  · obtain ⟨named, hpair, hitem, hlen, hidx, hnoobj, hmis⟩ := hA
    obtain ⟨hk, c, hc, hn⟩ := hmis 1 (JSVal.str "5") (by decide) rfl rfl
      ⟨0, JSVal.big 1, by decide, rfl, rfl⟩
    have hc2 : some (Component.mk "x" "uint256") = some c := hc
    injection hc2 with hc3
    subst hc3
    exact ⟨named, hpair, hitem, hn⟩
  · obtain ⟨namedValues, hitem, hlen, hperel⟩ := hB
    obtain ⟨named, hnv, hpair, hidx, hmis⟩ :=
      hperel 0 [JSVal.big 1, JSVal.str "5"] rfl
    obtain ⟨hk, c, hc, hn⟩ := hmis 1 (JSVal.str "5") (by decide) rfl rfl
      ⟨0, JSVal.big 1, by decide, rfl, rfl⟩
    have hc2 : some (Component.mk "x" "uint256") = some c := hc
    injection hc2 with hc3
    subst hc3
    exact ⟨namedValues, hitem, hlen, named, hnv, hn⟩

